import Mathlib

/-!
Shallow embedding of machin/frame/noise/param_space_noise.py.

Tensors are modelled as flat lists of rationals; the shape of a tensor is
its length. Parameter dictionaries (named_parameters, org_params,
noisy_params) are association lists from names to tensors, kept in the
iteration order of the module. Randomness is modelled by passing the
sequence of draws of the noise generator explicitly: a function from the
draw index to the drawn tensor. Python float arithmetic is modelled over
the rationals.
-/

namespace ParamSpaceNoise

abbrev Tensor := List ℚ

abbrev Params := List (String × Tensor)

/-- State of the class `AdaptiveParamNoise` (fields set in `__init__`). -/
structure AdaptiveParamNoise where
  initial_stddev : ℚ
  desired_action_stddev : ℚ
  adoption_coefficient : ℚ
  current_stddev : ℚ
  deriving Repr, DecidableEq

/-- Body of `AdaptiveParamNoise.__init__`: plain field assignments, with
`current_stddev` initialised to `initial_stddev`. -/
def AdaptiveParamNoise.make (initial_stddev desired_action_stddev
    adoption_coefficient : ℚ) : AdaptiveParamNoise :=
  { initial_stddev := initial_stddev
    desired_action_stddev := desired_action_stddev
    adoption_coefficient := adoption_coefficient
    current_stddev := initial_stddev }

/-- `AdaptiveParamNoise.__init__` viewed as fallible construction. The body
contains no raise statement and no validation, so it always returns
normally; the `Except` wrapper records that construction cannot fail. -/
def AdaptiveParamNoise.init (initial_stddev desired_action_stddev
    adoption_coefficient : ℚ) : Except String AdaptiveParamNoise :=
  Except.ok (AdaptiveParamNoise.make initial_stddev desired_action_stddev
    adoption_coefficient)

/-- `AdaptiveParamNoise.adapt`: shrink the stddev by the adoption
coefficient when the observed distance exceeds the desired one, otherwise
grow it. -/
def AdaptiveParamNoise.adapt (n : AdaptiveParamNoise) (distance : ℚ) :
    AdaptiveParamNoise :=
  if n.desired_action_stddev < distance then
    { n with current_stddev := n.current_stddev / n.adoption_coefficient }
  else
    { n with current_stddev := n.current_stddev * n.adoption_coefficient }

/-- `AdaptiveParamNoise.get_dev`. -/
def AdaptiveParamNoise.get_dev (n : AdaptiveParamNoise) : ℚ :=
  n.current_stddev

/-- Dictionary lookup on an association list of named tensors. -/
def lookupParam (d : Params) (name : String) : Option Tensor :=
  (d.find? (fun e => e.1 == name)).map (fun e => e.2)

/-- The copy loops of the hooks: for every live parameter, overwrite its
value in place with the value stored under the same name in the snapshot
dictionary `d` (`param_value.set_(d[param_name])`). In every reachable
state the snapshot was built from the same `named_parameters` iteration,
so the lookup always succeeds; on a missing name the value is kept. -/
def copyFrom (d : Params) (ps : Params) : Params :=
  ps.map (fun e => (e.1, (lookupParam d e.1).getD e.2))

/-- In-place tensor addition `param_value += noise`: succeeds when the
noise sample has the shape of the parameter, otherwise raises. The error
models the shape-mismatch failure of the host tensor library. -/
def tensorAdd (p n : Tensor) : Except String Tensor :=
  if n.length = p.length then Except.ok (List.zipWith (· + ·) p n)
  else Except.error "ShapeMismatchError"

/-- Outcome of the fresh-draw loop of `perturb_pre_hook`: the live
parameters after the loop, the two snapshot dictionaries it filled, and
the error, if any, that aborted it. -/
structure FreshDrawResult where
  params : Params
  org_params : Params
  noisy_params : Params
  err : Option String
  deriving Repr, DecidableEq

/-- The fresh-draw loop of `perturb_pre_hook` (after clearing both
snapshot dictionaries): for each parameter in order, store its clone in
`org_params`, add a freshly drawn noise sample in place, and store the
clone of the result in `noisy_params`. A raise in the in-place addition
aborts the loop; parameters already processed keep their new values, the
failing parameter and the rest keep their old values, and the snapshot
entries written so far (including the `org_params` entry of the failing
parameter, written before the addition) are kept. -/
def freshDraw (gen : Nat → Tensor) : Nat → Params → FreshDrawResult
  | _, [] => ⟨[], [], [], none⟩
  | i, (name, p) :: rest =>
    match tensorAdd p (gen i) with
    | Except.error e => ⟨(name, p) :: rest, [(name, p)], [], some e⟩
    | Except.ok p2 =>
      let r := freshDraw gen (i + 1) rest
      ⟨(name, p2) :: r.params, (name, p) :: r.org_params,
        (name, p2) :: r.noisy_params, r.err⟩

/-- The closure state of `_gen_perturb_hook`: the live module parameters
and the two snapshot dictionaries captured by the hooks. -/
structure PerturbState where
  params : Params
  org_params : Params
  noisy_params : Params
  deriving Repr, DecidableEq

/-- `perturb_pre_hook`. The switches are the values read from
`perturb_switch.get()` and `reset_switch.get()`; `gen` gives this
invocation of the draws of `perturb_gen`. Returns the new closure state
and the error, if any, raised by the fresh-draw loop. -/
def perturb_pre_hook (perturb_switch reset_switch : Bool)
    (gen : Nat → Tensor) (s : PerturbState) : PerturbState × Option String :=
  if perturb_switch then
    if s.noisy_params ≠ [] ∧ reset_switch = false then
      ({ s with params := copyFrom s.noisy_params s.params }, none)
    else
      let r := freshDraw gen 0 s.params
      (⟨r.params, r.org_params, r.noisy_params⟩, r.err)
  else
    if s.org_params ≠ [] then
      ({ s with params := copyFrom s.org_params s.params }, none)
    else
      (s, none)

/-- `perturb_post_hook`: restore the original snapshot into the live
parameters when one exists, otherwise do nothing. The body has no fallible
operation, so it never raises. -/
def perturb_post_hook (s : PerturbState) : PerturbState :=
  if s.org_params ≠ [] then
    { s with params := copyFrom s.org_params s.params }
  else
    s

/-- The closure state of `perturb_model`: the `tmp_action` dictionary
(at most one pending output per tag) and the `param_noise_spec`
controller. -/
structure AdjustState where
  with_noise : Option Tensor
  without_noise : Option Tensor
  param_noise_spec : AdaptiveParamNoise
  deriving Repr, DecidableEq

/-- `perturb_adjust_hook`: record the cloned output under the tag chosen
by the current perturb switch; when both tags are then present, compute
the distance of the two recorded outputs, clear `tmp_action` and feed the
distance to the controller. -/
def perturb_adjust_hook (distance_func : Tensor → Tensor → ℚ)
    (perturb_switch : Bool) (output : Tensor) (s : AdjustState) :
    AdjustState :=
  let s1 :=
    if perturb_switch then { s with with_noise := some output }
    else { s with without_noise := some output }
  match s1.with_noise, s1.without_noise with
  | some w, some wo =>
    ⟨none, none, s1.param_noise_spec.adapt (distance_func w wo)⟩
  | _, _ => s1

/-- The three callbacks built inside `perturb_model`. -/
inductive Hook where
  | pre
  | adjust
  | post
  deriving Repr, DecidableEq

/-- Where `perturb_model` installs each callback: `perturb_adjust_hook`
through `register_forward_hook`, the pre hook through
`register_forward_pre_hook`, and the post hook only into the
`reset_hooks` list (the `register_backward_hook` line is commented out in
the source). -/
structure PerturbModelRegistration where
  forward_pre_hooks : List Hook
  forward_hooks : List Hook
  reset_hooks : List Hook
  deriving Repr, DecidableEq

/-- The registrations performed by `perturb_model`. -/
def perturb_model_registration : PerturbModelRegistration :=
  { forward_pre_hooks := [Hook.pre]
    forward_hooks := [Hook.adjust]
    reset_hooks := [Hook.post] }

/-- Joint closure state of both hook generators for one session. -/
structure SessionState where
  perturb : PerturbState
  adjust : AdjustState
  deriving Repr, DecidableEq

/-- Effect of one registered callback at the pre-forward insertion point
(pre-forward callbacks receive no output). -/
def applyPreHook (perturb_switch reset_switch : Bool) (gen : Nat → Tensor)
    (s : SessionState) : Hook → SessionState
  | Hook.pre =>
    { s with
      perturb := (perturb_pre_hook perturb_switch reset_switch gen
        s.perturb).1 }
  | Hook.adjust => s
  | Hook.post => { s with perturb := perturb_post_hook s.perturb }

/-- Effect of one registered callback at the post-forward insertion point
(forward callbacks receive the freshly produced output). -/
def applyForwardHook (distance_func : Tensor → Tensor → ℚ)
    (perturb_switch : Bool) (output : Tensor) (s : SessionState) :
    Hook → SessionState
  | Hook.adjust =>
    { s with
      adjust := perturb_adjust_hook distance_func perturb_switch output
        s.adjust }
  | Hook.pre => s
  | Hook.post => { s with perturb := perturb_post_hook s.perturb }

/-- One model evaluation: run the registered pre-forward callbacks, run
the forward computation `fwd` of the module on the (possibly perturbed)
live parameters, then run the registered forward callbacks on the
output. -/
def model_evaluate (reg : PerturbModelRegistration)
    (distance_func : Tensor → Tensor → ℚ) (fwd : Params → Tensor)
    (perturb_switch reset_switch : Bool) (gen : Nat → Tensor)
    (s : SessionState) : SessionState :=
  let s1 := reg.forward_pre_hooks.foldl
    (applyPreHook perturb_switch reset_switch gen) s
  let output := fwd s1.perturb.params
  reg.forward_hooks.foldl
    (applyForwardHook distance_func perturb_switch output) s1

/-- The `reset` function returned by `perturb_model`: call every hook in
the `reset_hooks` list (each entry is a post hook taking no arguments). -/
def reset (reg : PerturbModelRegistration) (s : SessionState) :
    SessionState :=
  reg.reset_hooks.foldl
    (fun st h =>
      match h with
      | Hook.post => { st with perturb := perturb_post_hook st.perturb }
      | _ => st)
    s

/-- Inputs of one `perturb_pre_hook` invocation: the two switch values
read during the call and the draws of the noise generator in this call. -/
structure PreCall where
  perturb_switch : Bool
  reset_switch : Bool
  gen : Nat → Tensor

/-- Run one `pre_evaluate` invocation on the closure state (the result
state; a raised error additionally aborts the enclosing evaluation). -/
def runPre (c : PreCall) (s : PerturbState) : PerturbState :=
  (perturb_pre_hook c.perturb_switch c.reset_switch c.gen s).1

/-- Run a sequence of `pre_evaluate` invocations. -/
def runPres (cs : List PreCall) (s : PerturbState) : PerturbState :=
  cs.foldl (fun st c => runPre c st) s

/-- Run a sequence of evaluation-output recordings, each given by the
perturb-switch value at output time and the produced output. -/
def runAdjusts (distance_func : Tensor → Tensor → ℚ)
    (evs : List (Bool × Tensor)) (s : AdjustState) : AdjustState :=
  evs.foldl (fun st e => perturb_adjust_hook distance_func e.1 e.2 st) s

theorem lookupParam_cons (n : String) (v : Tensor) (d : Params)
    (m : String) :
    lookupParam ((n, v) :: d) m = if n = m then some v else lookupParam d m := by
  by_cases h : n = m
  · simp [lookupParam, List.find?_cons, h]
  · simp [lookupParam, List.find?_cons, h]

theorem copyFrom_map_fst (d ps : Params) :
    (copyFrom d ps).map Prod.fst = ps.map Prod.fst := by
  simp [copyFrom, List.map_map]

theorem copyFrom_copyFrom (d ps : Params) :
    copyFrom d (copyFrom d ps) = copyFrom d ps := by
  induction ps with
  | nil => rfl
  | cons e rest ih =>
    simp only [copyFrom, List.map_cons, List.map_map] at ih ⊢
    refine congrArg₂ _ ?_ ih
    cases h : lookupParam d e.1 <;> simp [h]

theorem copyFrom_cons_of_ne (n : String) (v : Tensor) (d ps : Params)
    (h : ∀ e ∈ ps, e.1 ≠ n) :
    copyFrom ((n, v) :: d) ps = copyFrom d ps := by
  induction ps with
  | nil => rfl
  | cons e rest ih =>
    simp only [copyFrom, List.map_cons] at ih ⊢
    have he : e.1 ≠ n := h e (List.mem_cons_self e rest)
    rw [lookupParam_cons]
    rw [if_neg (fun hn => he hn.symm)]
    refine congrArg₂ _ rfl ?_
    exact ih (fun x hx => h x (List.mem_cons_of_mem e hx))

theorem copyFrom_self (d ps : Params)
    (hfst : d.map Prod.fst = ps.map Prod.fst)
    (hnodup : (ps.map Prod.fst).Nodup) :
    copyFrom d ps = d := by
  induction ps generalizing d with
  | nil =>
    cases d with
    | nil => rfl
    | cons f d2 => simp at hfst
  | cons e rest ih =>
    cases d with
    | nil => simp at hfst
    | cons f d2 =>
      simp only [List.map_cons, List.cons.injEq] at hfst
      obtain ⟨hfe, htl⟩ := hfst
      simp only [List.map_cons, List.nodup_cons] at hnodup
      obtain ⟨hnm, hnd⟩ := hnodup
      have hstep : copyFrom (f :: d2) (e :: rest) =
          (e.1, (lookupParam (f :: d2) e.1).getD e.2) ::
            copyFrom (f :: d2) rest := rfl
      have hrw : copyFrom (f :: d2) rest = copyFrom d2 rest := by
        obtain ⟨fn, fv⟩ := f
        refine copyFrom_cons_of_ne fn fv d2 rest ?_
        intro x hx hxe
        apply hnm
        have hmem : x.1 ∈ List.map Prod.fst rest :=
          List.mem_map_of_mem Prod.fst hx
        rw [hxe] at hmem
        simp only at hfe
        rw [← hfe]
        exact hmem
      rw [hstep, hrw, ih d2 htl hnd]
      obtain ⟨fn, fv⟩ := f
      simp only at hfe
      subst hfe
      simp [lookupParam_cons]

theorem freshDraw_org_of_ok (gen : Nat → Tensor) (i : Nat) (ps : Params)
    (h : (freshDraw gen i ps).err = none) :
    (freshDraw gen i ps).org_params = ps := by
  induction ps generalizing i with
  | nil => rfl
  | cons e rest ih =>
    obtain ⟨n, p⟩ := e
    cases h2 : tensorAdd p (gen i) with
    | error e2 => simp [freshDraw, h2] at h
    | ok p2 =>
      simp only [freshDraw, h2] at h ⊢
      exact congrArg₂ _ rfl (ih (i + 1) h)

theorem freshDraw_params_fst_of_ok (gen : Nat → Tensor) (i : Nat)
    (ps : Params) (h : (freshDraw gen i ps).err = none) :
    (freshDraw gen i ps).params.map Prod.fst = ps.map Prod.fst := by
  induction ps generalizing i with
  | nil => rfl
  | cons e rest ih =>
    obtain ⟨n, p⟩ := e
    cases h2 : tensorAdd p (gen i) with
    | error e2 => simp [freshDraw, h2] at h
    | ok p2 =>
      simp only [freshDraw, h2] at h ⊢
      simp only [List.map_cons]
      exact congrArg₂ _ rfl (ih (i + 1) h)

theorem freshDraw_noisy_ne_nil (gen : Nat → Tensor) (i : Nat) (ps : Params)
    (h : (freshDraw gen i ps).err = none) (hne : ps ≠ []) :
    (freshDraw gen i ps).noisy_params ≠ [] := by
  cases ps with
  | nil => exact absurd rfl hne
  | cons e rest =>
    obtain ⟨n, p⟩ := e
    cases h2 : tensorAdd p (gen i) with
    | error e2 => simp [freshDraw, h2] at h
    | ok p2 => simp [freshDraw, h2]

theorem freshDraw_append (gen : Nat → Tensor) (i : Nat) (pre xs : Params)
    (h : (freshDraw gen i pre).err = none) :
    freshDraw gen i (pre ++ xs) =
      ⟨(freshDraw gen i pre).params ++
          (freshDraw gen (i + pre.length) xs).params,
        (freshDraw gen i pre).org_params ++
          (freshDraw gen (i + pre.length) xs).org_params,
        (freshDraw gen i pre).noisy_params ++
          (freshDraw gen (i + pre.length) xs).noisy_params,
        (freshDraw gen (i + pre.length) xs).err⟩ := by
  induction pre generalizing i with
  | nil => simp [freshDraw]
  | cons e rest ih =>
    obtain ⟨n, p⟩ := e
    cases h2 : tensorAdd p (gen i) with
    | error e2 => simp [freshDraw, h2] at h
    | ok p2 =>
      have h3 : (freshDraw gen (i + 1) rest).err = none := by
        simpa [freshDraw, h2] using h
      have hlen : i + 1 + rest.length = i + (rest.length + 1) := by omega
      simp only [List.cons_append, freshDraw, h2, List.append_eq,
        ih (i + 1) h3, List.length_cons, hlen]

theorem freshDraw_params_getElem_of_ok (gen : Nat → Tensor) (i : Nat)
    (ps : Params) (h : (freshDraw gen i ps).err = none) (k : Nat) :
    (freshDraw gen i ps).params[k]? =
      (ps[k]?).map
        (fun e => (e.1, List.zipWith (· + ·) e.2 (gen (i + k)))) := by
  induction ps generalizing i k with
  | nil => simp [freshDraw]
  | cons e rest ih =>
    obtain ⟨n, p⟩ := e
    cases h2 : tensorAdd p (gen i) with
    | error e2 => simp [freshDraw, h2] at h
    | ok p2 =>
      have h3 : (freshDraw gen (i + 1) rest).err = none := by
        simpa [freshDraw, h2] using h
      have hp2 : p2 = List.zipWith (· + ·) p (gen i) := by
        simp only [tensorAdd] at h2
        by_cases hl : (gen i).length = p.length
        · rw [if_pos hl] at h2
          exact (Except.ok.injEq _ _ ▸ h2).symm
        · rw [if_neg hl] at h2
          exact absurd h2 (by simp)
      cases k with
      | zero => simp [freshDraw, h2, hp2]
      | succ k2 =>
        have hik : i + (k2 + 1) = i + 1 + k2 := by omega
        simp only [freshDraw, h2, List.getElem?_cons_succ, hik]
        exact ih (i + 1) h3 k2

theorem runPre_nonfresh (c : PreCall) (s : PerturbState)
    (hc : c.perturb_switch = false ∨ c.reset_switch = false)
    (hn : s.noisy_params ≠ []) :
    (runPre c s).org_params = s.org_params ∧
    (runPre c s).noisy_params = s.noisy_params ∧
    (runPre c s).params.map Prod.fst = s.params.map Prod.fst := by
  obtain ⟨pb, rb, g⟩ := c
  cases pb with
  | false =>
    by_cases ho : s.org_params ≠ []
    · have hr : runPre ⟨false, rb, g⟩ s =
          { s with params := copyFrom s.org_params s.params } := by
        unfold runPre perturb_pre_hook
        rw [if_neg (by simp), if_pos ho]
      rw [hr]
      exact ⟨rfl, rfl, copyFrom_map_fst _ _⟩
    · have hr : runPre ⟨false, rb, g⟩ s = s := by
        unfold runPre perturb_pre_hook
        rw [if_neg (by simp), if_neg ho]
      rw [hr]
      exact ⟨rfl, rfl, rfl⟩
  | true =>
    have hrb : rb = false := by
      rcases hc with h1 | h1
      · simp at h1
      · exact h1
    subst hrb
    have hr : runPre ⟨true, false, g⟩ s =
        { s with params := copyFrom s.noisy_params s.params } := by
      unfold runPre perturb_pre_hook
      rw [if_pos rfl, if_pos (And.intro hn rfl)]
    rw [hr]
    exact ⟨rfl, rfl, copyFrom_map_fst _ _⟩

theorem runPres_nonfresh (cs : List PreCall) (s : PerturbState)
    (hcs : ∀ c ∈ cs, c.perturb_switch = false ∨ c.reset_switch = false)
    (hn : s.noisy_params ≠ []) :
    (runPres cs s).org_params = s.org_params ∧
    (runPres cs s).noisy_params = s.noisy_params ∧
    (runPres cs s).params.map Prod.fst = s.params.map Prod.fst := by
  induction cs generalizing s with
  | nil => exact ⟨rfl, rfl, rfl⟩
  | cons c rest ih =>
    have hc := hcs c (List.mem_cons_self c rest)
    have h1 := runPre_nonfresh c s hc hn
    have hn2 : (runPre c s).noisy_params ≠ [] := by
      rw [h1.2.1]; exact hn
    have h2 := ih (runPre c s)
      (fun x hx => hcs x (List.mem_cons_of_mem c hx)) hn2
    refine ⟨?_, ?_, ?_⟩
    · rw [show runPres (c :: rest) s = runPres rest (runPre c s) from rfl,
        h2.1, h1.1]
    · rw [show runPres (c :: rest) s = runPres rest (runPre c s) from rfl,
        h2.2.1, h1.2.1]
    · rw [show runPres (c :: rest) s = runPres rest (runPre c s) from rfl,
        h2.2.2, h1.2.2]

theorem adjust_hook_not_both (distance_func : Tensor → Tensor → ℚ)
    (perturb_switch : Bool) (output : Tensor) (s : AdjustState) :
    ¬ ((perturb_adjust_hook distance_func perturb_switch output
          s).with_noise.isSome = true ∧
       (perturb_adjust_hook distance_func perturb_switch output
          s).without_noise.isSome = true) := by
  simp only [perturb_adjust_hook]
  cases perturb_switch with
  | true =>
    cases h : s.without_noise with
    | none => simp [h]
    | some wo => simp [h]
  | false =>
    cases h : s.with_noise with
    | none => simp [h]
    | some w => simp [h]

theorem runAdjusts_true_run (distance_func : Tensor → Tensor → ℚ)
    (os : List Tensor) :
    ∀ s : AdjustState, s.without_noise = none →
    runAdjusts distance_func (os.map (fun o => (true, o))) s =
      { s with with_noise := (os.getLast?.map some).getD s.with_noise } := by
  induction os with
  | nil => intro s _; simp [runAdjusts]
  | cons o rest ih =>
    intro s h
    have h1 : perturb_adjust_hook distance_func true o s =
        { s with with_noise := some o } := by
      simp [perturb_adjust_hook, h]
    have hstep : runAdjusts distance_func
        (((o :: rest).map (fun o2 => (true, o2)))) s =
        runAdjusts distance_func (rest.map (fun o2 => (true, o2)))
          (perturb_adjust_hook distance_func true o s) := rfl
    rw [hstep, h1, ih { s with with_noise := some o } h]
    cases rest with
    | nil => simp
    | cons r rs =>
      have hsome : ((r :: rs).getLast?).isSome = true := by
        simp [List.getLast?_isSome]
      obtain ⟨x, hx⟩ := Option.isSome_iff_exists.mp hsome
      simp [List.getLast?_cons_cons, hx]

theorem runAdjusts_false_run (distance_func : Tensor → Tensor → ℚ)
    (os : List Tensor) :
    ∀ s : AdjustState, s.with_noise = none →
    runAdjusts distance_func (os.map (fun o => (false, o))) s =
      { s with
        without_noise := (os.getLast?.map some).getD s.without_noise } := by
  induction os with
  | nil => intro s _; simp [runAdjusts]
  | cons o rest ih =>
    intro s h
    have h1 : perturb_adjust_hook distance_func false o s =
        { s with without_noise := some o } := by
      simp [perturb_adjust_hook, h]
    have hstep : runAdjusts distance_func
        (((o :: rest).map (fun o2 => (false, o2)))) s =
        runAdjusts distance_func (rest.map (fun o2 => (false, o2)))
          (perturb_adjust_hook distance_func false o s) := rfl
    rw [hstep, h1, ih { s with without_noise := some o } h]
    cases rest with
    | nil => simp
    | cons r rs =>
      have hsome : ((r :: rs).getLast?).isSome = true := by
        simp [List.getLast?_isSome]
      obtain ⟨x, hx⟩ := Option.isSome_iff_exists.mp hsome
      simp [List.getLast?_cons_cons, hx]

/-- Claim C3, counterexample: constructing the controller with
`adoption_coefficient = 1/2 <= 1` (and likewise any other invalid input)
succeeds normally; `AdaptiveParamNoise.__init__` performs no validation
and never raises, so no `ConfigurationError` exists. -/
theorem adaptive_param_noise_init_no_validation :
    AdaptiveParamNoise.init (1 / 10) (1 / 10) (1 / 2) =
      Except.ok (AdaptiveParamNoise.make (1 / 10) (1 / 10) (1 / 2)) ∧
    (1 : ℚ) / 2 ≤ 1 := by
  exact ⟨rfl, by norm_num⟩

/-- Claim C3, amended: construction never fails for any input, valid or
not; it always succeeds with the current magnitude equal to the initial
magnitude. -/
theorem adaptive_param_noise_init_total (initial desired coeff : ℚ) :
    AdaptiveParamNoise.init initial desired coeff =
      Except.ok (AdaptiveParamNoise.make initial desired coeff) ∧
    (AdaptiveParamNoise.make initial desired coeff).current_stddev =
      initial :=
  ⟨rfl, rfl⟩

/-- Claim C4: `adapt(distance)` divides the current magnitude by the
adoption coefficient when the distance strictly exceeds the desired one
and multiplies it by the coefficient otherwise (including at exact
equality); with `initial = 0.1`, `desired = 0.5`, `coefficient = 1.01`,
`adapt 0.6` gives `0.1 / 1.01` and `adapt 0.4` gives `0.1 * 1.01`. -/
theorem adapt_spec (n : AdaptiveParamNoise) (d : ℚ) :
    (n.desired_action_stddev < d →
      n.adapt d =
        { n with current_stddev :=
            n.current_stddev / n.adoption_coefficient }) ∧
    (d ≤ n.desired_action_stddev →
      n.adapt d =
        { n with current_stddev :=
            n.current_stddev * n.adoption_coefficient }) ∧
    ((AdaptiveParamNoise.make (1 / 10) (1 / 2) (101 / 100)).adapt
        (6 / 10)).current_stddev = (1 / 10) / (101 / 100) ∧
    ((AdaptiveParamNoise.make (1 / 10) (1 / 2) (101 / 100)).adapt
        (4 / 10)).current_stddev = (1 / 10) * (101 / 100) := by
  refine ⟨?_, ?_, ?_, ?_⟩
  · intro h
    unfold AdaptiveParamNoise.adapt
    rw [if_pos h]
  · intro h
    unfold AdaptiveParamNoise.adapt
    rw [if_neg (not_lt.mpr h)]
  · unfold AdaptiveParamNoise.adapt AdaptiveParamNoise.make
    rw [if_pos (by norm_num)]
  · unfold AdaptiveParamNoise.adapt AdaptiveParamNoise.make
    rw [if_neg (by norm_num)]

/-- Witness for C4 at a concrete controller. -/
theorem adapt_spec_witness :
    ((1 : ℚ) < 2 ∧ (AdaptiveParamNoise.make 1 1 2).adapt 2 =
      { AdaptiveParamNoise.make 1 1 2 with
        current_stddev := (AdaptiveParamNoise.make 1 1 2).current_stddev /
          (AdaptiveParamNoise.make 1 1 2).adoption_coefficient }) ∧
    ((1 : ℚ) ≤ 1 ∧ (AdaptiveParamNoise.make 1 1 2).adapt 1 =
      { AdaptiveParamNoise.make 1 1 2 with
        current_stddev := (AdaptiveParamNoise.make 1 1 2).current_stddev *
          (AdaptiveParamNoise.make 1 1 2).adoption_coefficient }) :=
  ⟨⟨by norm_num,
      (adapt_spec (AdaptiveParamNoise.make 1 1 2) 2).1 (by decide)⟩,
    ⟨le_refl 1,
      (adapt_spec (AdaptiveParamNoise.make 1 1 2) 1).2.1 (by decide)⟩⟩

/-- Claim C5: with the perturb switch on, the reset switch off and a
noisy snapshot cached, `pre_evaluate` copies the cached noisy values into
the live parameters without drawing new noise (the result does not depend
on the generator), and a second such call yields identical live
parameters. -/
theorem pre_evaluate_cache_reuse (s : PerturbState)
    (gen gen2 : Nat → Tensor) (hn : s.noisy_params ≠ []) :
    perturb_pre_hook true false gen s =
      ({ s with params := copyFrom s.noisy_params s.params }, none) ∧
    perturb_pre_hook true false gen s =
      perturb_pre_hook true false gen2 s ∧
    (runPre ⟨true, false, gen2⟩ (runPre ⟨true, false, gen⟩ s)).params =
      (runPre ⟨true, false, gen⟩ s).params := by
  have h1 : ∀ g : Nat → Tensor, perturb_pre_hook true false g s =
      ({ s with params := copyFrom s.noisy_params s.params }, none) := by
    intro g
    unfold perturb_pre_hook
    rw [if_pos rfl, if_pos (And.intro hn rfl)]
  have hs1 : runPre ⟨true, false, gen⟩ s =
      { s with params := copyFrom s.noisy_params s.params } := by
    show (perturb_pre_hook true false gen s).1 = _
    rw [h1 gen]
  refine ⟨h1 gen, (h1 gen).trans (h1 gen2).symm, ?_⟩
  rw [hs1]
  have h2 : perturb_pre_hook true false gen2
      { s with params := copyFrom s.noisy_params s.params } =
      ({ s with params :=
          copyFrom s.noisy_params (copyFrom s.noisy_params s.params) },
        none) := by
    unfold perturb_pre_hook
    rw [if_pos rfl, if_pos (And.intro hn rfl)]
  show (perturb_pre_hook true false gen2 _).1.params = _
  rw [h2]
  exact congrArg (fun l => (l, s.org_params, s.noisy_params).1)
    (copyFrom_copyFrom s.noisy_params s.params)

/-- Witness for C5 at a concrete state with a cached noisy snapshot. -/
theorem pre_evaluate_cache_reuse_witness :
    perturb_pre_hook true false (fun _ => [1])
        ⟨[("w", [5])], [("w", [0])], [("w", [7])]⟩ =
      ({ params := copyFrom [("w", [7])] [("w", [5])],
         org_params := [("w", [0])], noisy_params := [("w", [7])] },
        none) ∧
    perturb_pre_hook true false (fun _ => [1])
        ⟨[("w", [5])], [("w", [0])], [("w", [7])]⟩ =
      perturb_pre_hook true false (fun _ => [2])
        ⟨[("w", [5])], [("w", [0])], [("w", [7])]⟩ ∧
    (runPre ⟨true, false, fun _ => [2]⟩ (runPre ⟨true, false, fun _ => [1]⟩
        ⟨[("w", [5])], [("w", [0])], [("w", [7])]⟩)).params =
      (runPre ⟨true, false, fun _ => [1]⟩
        ⟨[("w", [5])], [("w", [0])], [("w", [7])]⟩).params :=
  pre_evaluate_cache_reuse ⟨[("w", [5])], [("w", [0])], [("w", [7])]⟩
    (fun _ => [1]) (fun _ => [2]) (by decide)

/-- Claim C6: with the perturb switch off, `pre_evaluate` copies the
original snapshot back into the live parameters when one exists (leaving
both snapshots unchanged, and producing exactly the snapshot values when
the snapshot names match the distinct live parameter names), and changes
nothing when no snapshot exists. -/
theorem pre_evaluate_disabled (s : PerturbState) (rswitch : Bool)
    (gen : Nat → Tensor) :
    (s.org_params ≠ [] →
      perturb_pre_hook false rswitch gen s =
        ({ s with params := copyFrom s.org_params s.params }, none)) ∧
    (s.org_params ≠ [] →
      s.org_params.map Prod.fst = s.params.map Prod.fst →
      (s.params.map Prod.fst).Nodup →
      (perturb_pre_hook false rswitch gen s).1.params = s.org_params) ∧
    (s.org_params = [] → perturb_pre_hook false rswitch gen s = (s, none)) := by
  refine ⟨?_, ?_, ?_⟩
  · intro ho
    unfold perturb_pre_hook
    rw [if_neg (by simp), if_pos ho]
  · intro ho hfst hnodup
    unfold perturb_pre_hook
    rw [if_neg (by simp), if_pos ho]
    exact copyFrom_self s.org_params s.params hfst hnodup
  · intro ho
    unfold perturb_pre_hook
    rw [if_neg (by simp), if_neg (fun hne => hne ho)]

/-- Witness for C6 at concrete states with and without a snapshot. -/
theorem pre_evaluate_disabled_witness :
    perturb_pre_hook false true (fun _ => [1])
        ⟨[("w", [5])], [("w", [0])], [("w", [7])]⟩ =
      ({ params := copyFrom [("w", [0])] [("w", [5])],
         org_params := [("w", [0])], noisy_params := [("w", [7])] },
        none) ∧
    (perturb_pre_hook false true (fun _ => [1])
        ⟨[("w", [5])], [("w", [0])], [("w", [7])]⟩).1.params =
      [("w", [0])] ∧
    perturb_pre_hook false true (fun _ => [1]) ⟨[("w", [5])], [], []⟩ =
      (⟨[("w", [5])], [], []⟩, none) :=
  ⟨(pre_evaluate_disabled ⟨[("w", [5])], [("w", [0])], [("w", [7])]⟩ true
      (fun _ => [1])).1 (by decide),
    (pre_evaluate_disabled ⟨[("w", [5])], [("w", [0])], [("w", [7])]⟩ true
      (fun _ => [1])).2.1 (by decide) (by decide) (by decide),
    (pre_evaluate_disabled ⟨[("w", [5])], [], []⟩ true
      (fun _ => [1])).2.2 rfl⟩

/-- Claim C8: `post_evaluate` (and the returned reset function) is a safe
no-op when no original snapshot exists — its body is infallible, so it
never raises — and running it twice consecutively leaves the state
exactly as the first run left it, on every state. -/
theorem post_evaluate_safe_idempotent (s : PerturbState) (a : AdjustState) :
    (s.org_params = [] → perturb_post_hook s = s) ∧
    perturb_post_hook (perturb_post_hook s) = perturb_post_hook s ∧
    reset perturb_model_registration ⟨s, a⟩ = ⟨perturb_post_hook s, a⟩ ∧
    reset perturb_model_registration
        (reset perturb_model_registration ⟨s, a⟩) =
      reset perturb_model_registration ⟨s, a⟩ := by
  have hidem : perturb_post_hook (perturb_post_hook s) =
      perturb_post_hook s := by
    by_cases ho : s.org_params ≠ []
    · have h1 : perturb_post_hook s =
          { s with params := copyFrom s.org_params s.params } := by
        unfold perturb_post_hook
        rw [if_pos ho]
      rw [h1]
      unfold perturb_post_hook
      rw [if_pos ho]
      exact congrArg (fun l => PerturbState.mk l s.org_params
        s.noisy_params) (copyFrom_copyFrom s.org_params s.params)
    · have ho2 : s.org_params = [] := of_not_not (fun h => ho h)
      have h1 : perturb_post_hook s = s := by
        unfold perturb_post_hook
        rw [if_neg (fun hne => hne ho2)]
      rw [h1, h1]
  have hreset : reset perturb_model_registration ⟨s, a⟩ =
      ⟨perturb_post_hook s, a⟩ := rfl
  refine ⟨?_, hidem, hreset, ?_⟩
  · intro ho
    unfold perturb_post_hook
    rw [if_neg (fun hne => hne ho)]
  · rw [hreset]
    show (⟨perturb_post_hook (perturb_post_hook s), a⟩ : SessionState) = _
    rw [hidem]

/-- Witness for C8 at a concrete snapshot-free state. -/
theorem post_evaluate_safe_idempotent_witness :
    perturb_post_hook ⟨[("w", [5])], [], [("w", [7])]⟩ =
      ⟨[("w", [5])], [], [("w", [7])]⟩ ∧
    perturb_post_hook (perturb_post_hook
        ⟨[("w", [5])], [], [("w", [7])]⟩) =
      perturb_post_hook ⟨[("w", [5])], [], [("w", [7])]⟩ :=
  ⟨(post_evaluate_safe_idempotent ⟨[("w", [5])], [], [("w", [7])]⟩
      ⟨none, none, AdaptiveParamNoise.make 1 1 2⟩).1 rfl,
    (post_evaluate_safe_idempotent ⟨[("w", [5])], [], [("w", [7])]⟩
      ⟨none, none, AdaptiveParamNoise.make 1 1 2⟩).2.1⟩

/-- Claim C1, counterexample: two fresh-draw `pre_evaluate` calls (both
switches on) followed by `post_evaluate` leave the live parameter at the
value produced by the first draw, not at its value before the first call
of the session: the second fresh draw snapshots the already-noisy live
value as the original. -/
theorem exact_restoration_counterexample :
    (perturb_post_hook (runPre ⟨true, true, fun _ => [1]⟩
        (runPre ⟨true, true, fun _ => [1]⟩
          ⟨[("w", [0])], [], []⟩))).params = [("w", [1])] ∧
    (⟨[("w", [0])], [], []⟩ : PerturbState).params = [("w", [0])] ∧
    (perturb_post_hook (runPre ⟨true, true, fun _ => [1]⟩
        (runPre ⟨true, true, fun _ => [1]⟩
          ⟨[("w", [0])], [], []⟩))).params ≠ [("w", [0])] := by
  refine ⟨?_, rfl, ?_⟩ <;>
    norm_num [runPre, perturb_pre_hook, freshDraw, tensorAdd, copyFrom,
      lookupParam, perturb_post_hook]

/-- Claim C1, amended: `post_evaluate` restores every live parameter
bit-exactly to the value it held immediately before the most recent
fresh-draw `pre_evaluate` of the session: after a successful fresh draw
on distinctly named parameters, followed by any sequence of
`pre_evaluate` calls that are not fresh draws (perturbation disabled, or
cache reuse with the resample switch off), `post_evaluate` yields the
parameter values from just before the fresh draw. -/
theorem post_evaluate_restores_fresh_draw_snapshot
    (s0 : PerturbState) (c0 : PreCall) (rest : List PreCall)
    (hnodup : (s0.params.map Prod.fst).Nodup)
    (hne : s0.params ≠ [])
    (hp : c0.perturb_switch = true)
    (hfresh : s0.noisy_params = [] ∨ c0.reset_switch = true)
    (hok : (freshDraw c0.gen 0 s0.params).err = none)
    (hrest : ∀ c ∈ rest, c.perturb_switch = false ∨ c.reset_switch = false) :
    (perturb_post_hook (runPres rest (runPre c0 s0))).params = s0.params := by
  obtain ⟨pb, rb, g⟩ := c0
  simp only at hp hfresh hok
  subst hp
  have hcond : ¬ (s0.noisy_params ≠ [] ∧ rb = false) := by
    rcases hfresh with h | h
    · exact fun hc => hc.1 h
    · intro hc
      rw [h] at hc
      simp at hc
  have hs1 : runPre ⟨true, rb, g⟩ s0 =
      ⟨(freshDraw g 0 s0.params).params,
        (freshDraw g 0 s0.params).org_params,
        (freshDraw g 0 s0.params).noisy_params⟩ := by
    unfold runPre perturb_pre_hook
    rw [if_pos rfl, if_neg hcond]
  rw [hs1]
  have horg : (freshDraw g 0 s0.params).org_params = s0.params :=
    freshDraw_org_of_ok g 0 s0.params hok
  have hnz : (freshDraw g 0 s0.params).noisy_params ≠ [] :=
    freshDraw_noisy_ne_nil g 0 s0.params hok hne
  have hfst1 : (freshDraw g 0 s0.params).params.map Prod.fst =
      s0.params.map Prod.fst :=
    freshDraw_params_fst_of_ok g 0 s0.params hok
  have h2 := runPres_nonfresh rest
    ⟨(freshDraw g 0 s0.params).params,
      (freshDraw g 0 s0.params).org_params,
      (freshDraw g 0 s0.params).noisy_params⟩ hrest hnz
  have horgN := h2.1.trans horg
  have hfstN := h2.2.2.trans hfst1
  unfold perturb_post_hook
  rw [if_pos (by rw [horgN]; exact hne), horgN]
  show copyFrom s0.params _ = s0.params
  refine copyFrom_self s0.params _ hfstN.symm ?_
  rw [hfstN]
  exact hnodup

/-- Witness for the amended C1 at a concrete session: fresh draw, then a
clean evaluation and a cache reuse, then restore. -/
theorem post_evaluate_restores_fresh_draw_snapshot_witness :
    (perturb_post_hook (runPres
        [⟨false, true, fun _ => []⟩, ⟨true, false, fun _ => [9]⟩]
        (runPre ⟨true, true, fun _ => [1]⟩
          ⟨[("w", [0])], [], []⟩))).params = [("w", [0])] :=
  post_evaluate_restores_fresh_draw_snapshot ⟨[("w", [0])], [], []⟩
    ⟨true, true, fun _ => [1]⟩
    [⟨false, true, fun _ => []⟩, ⟨true, false, fun _ => [9]⟩]
    (by decide) (by decide) rfl (Or.inl rfl) (by decide) (by decide)

/-- Claim C2, counterexample: the only registered post-evaluation
callback is the distance-tracker feed; the restore hook is not among the
forward hooks, and after a completed model evaluation with an original
snapshot present the live parameters still hold the noisy values, not the
snapshot. -/
theorem forward_hook_no_restore_counterexample :
    perturb_model_registration.forward_hooks = [Hook.adjust] ∧
    Hook.post ∉ perturb_model_registration.forward_hooks ∧
    (model_evaluate perturb_model_registration (fun _ _ => 0)
        (fun _ => []) true true (fun _ => [1])
        ⟨⟨[("w", [0])], [], []⟩,
          ⟨none, none, AdaptiveParamNoise.make 1 1 2⟩⟩).perturb.org_params =
      [("w", [0])] ∧
    (model_evaluate perturb_model_registration (fun _ _ => 0)
        (fun _ => []) true true (fun _ => [1])
        ⟨⟨[("w", [0])], [], []⟩,
          ⟨none, none, AdaptiveParamNoise.make 1 1 2⟩⟩).perturb.params =
      [("w", [1])] ∧
    (model_evaluate perturb_model_registration (fun _ _ => 0)
        (fun _ => []) true true (fun _ => [1])
        ⟨⟨[("w", [0])], [], []⟩,
          ⟨none, none, AdaptiveParamNoise.make 1 1 2⟩⟩).perturb.params ≠
      [("w", [0])] := by
  refine ⟨rfl, by decide, ?_, ?_, ?_⟩ <;>
    norm_num [model_evaluate, perturb_model_registration, applyPreHook,
      applyForwardHook, perturb_pre_hook, freshDraw, tensorAdd,
      perturb_adjust_hook]

/-- Claim C2, amended: `perturb_model` registers the pre hook as the only
pre-evaluation callback and the distance-tracker feed as the only
post-evaluation callback; the post-evaluation callback never touches the
perturbation state, and the restore bookkeeping lives solely in the
returned reset function, which the caller must invoke before a gradient
update. -/
theorem perturb_model_hook_registration
    (distance_func : Tensor → Tensor → ℚ) (perturb_switch : Bool)
    (output : Tensor) (s : SessionState) :
    perturb_model_registration =
      ⟨[Hook.pre], [Hook.adjust], [Hook.post]⟩ ∧
    applyForwardHook distance_func perturb_switch output s Hook.adjust =
      { s with adjust := (perturb_adjust_hook distance_func perturb_switch
          output s.adjust) } ∧
    (applyForwardHook distance_func perturb_switch output s
        Hook.adjust).perturb = s.perturb ∧
    reset perturb_model_registration s =
      { s with perturb := perturb_post_hook s.perturb } :=
  ⟨rfl, rfl, rfl, rfl⟩

/-- Claim C7: the output tracker holds at most one output per tag; a
recording that completes the pair computes the distance of the with-noise
and without-noise outputs in that argument order, feeds it to the
controller and clears both slots, in either arrival order; a recording
that does not complete the pair stores the output and performs no
adaptation. -/
theorem adjust_hook_pairing (distance_func : Tensor → Tensor → ℚ)
    (s : AdjustState) (o w wo : Tensor) :
    (s.without_noise = none →
      perturb_adjust_hook distance_func true o s =
        { s with with_noise := some o }) ∧
    (s.with_noise = none →
      perturb_adjust_hook distance_func false o s =
        { s with without_noise := some o }) ∧
    (s.with_noise = some w →
      perturb_adjust_hook distance_func false wo s =
        ⟨none, none, s.param_noise_spec.adapt (distance_func w wo)⟩) ∧
    (s.without_noise = some wo →
      perturb_adjust_hook distance_func true w s =
        ⟨none, none, s.param_noise_spec.adapt (distance_func w wo)⟩) := by
  refine ⟨?_, ?_, ?_, ?_⟩
  · intro h
    simp [perturb_adjust_hook, h]
  · intro h
    simp [perturb_adjust_hook, h]
  · intro h
    simp [perturb_adjust_hook, h]
  · intro h
    simp [perturb_adjust_hook, h]

/-- Witness for C7 at concrete tracker states, both arrival orders. -/
theorem adjust_hook_pairing_witness :
    perturb_adjust_hook (fun x y => x.length + y.length) true [1]
        ⟨none, none, AdaptiveParamNoise.make 1 1 2⟩ =
      ⟨some [1], none, AdaptiveParamNoise.make 1 1 2⟩ ∧
    perturb_adjust_hook (fun x y => x.length + y.length) false [2]
        ⟨some [1], none, AdaptiveParamNoise.make 1 1 2⟩ =
      ⟨none, none, (AdaptiveParamNoise.make 1 1 2).adapt
        ((fun x y : Tensor => (x.length : ℚ) + y.length) [1] [2])⟩ ∧
    perturb_adjust_hook (fun x y => x.length + y.length) true [1]
        ⟨none, some [2], AdaptiveParamNoise.make 1 1 2⟩ =
      ⟨none, none, (AdaptiveParamNoise.make 1 1 2).adapt
        ((fun x y : Tensor => (x.length : ℚ) + y.length) [1] [2])⟩ :=
  ⟨(adjust_hook_pairing (fun x y => x.length + y.length)
      ⟨none, none, AdaptiveParamNoise.make 1 1 2⟩ [1] [1] [2]).1 rfl,
    (adjust_hook_pairing (fun x y => x.length + y.length)
      ⟨some [1], none, AdaptiveParamNoise.make 1 1 2⟩ [2] [1] [2]).2.2.1 rfl,
    (adjust_hook_pairing (fun x y => x.length + y.length)
      ⟨none, some [2], AdaptiveParamNoise.make 1 1 2⟩ [2] [1] [2]).2.2.2 rfl⟩

/-- Claim C9: in the fresh-draw branch of `pre_evaluate`, a noise sample
whose shape does not match its parameter raises the shape-mismatch error;
the parameters before the failing one keep their freshly noised values
(each loop iteration commits independently, no rollback), the failing
parameter and the ones after it keep their old values, and the original
snapshot holds the pre-noise values of the processed prefix plus the
failing parameter. -/
theorem pre_evaluate_shape_mismatch (s : PerturbState) (rswitch : Bool)
    (gen : Nat → Tensor) (pre rest : Params) (nm : String) (p : Tensor)
    (hps : s.params = pre ++ (nm, p) :: rest)
    (hfresh : s.noisy_params = [] ∨ rswitch = true)
    (hpreok : (freshDraw gen 0 pre).err = none)
    (hmis : (gen pre.length).length ≠ p.length) :
    (perturb_pre_hook true rswitch gen s).2 = some "ShapeMismatchError" ∧
    (perturb_pre_hook true rswitch gen s).1.params =
      (freshDraw gen 0 pre).params ++ (nm, p) :: rest ∧
    (∀ k, (freshDraw gen 0 pre).params[k]? =
      (pre[k]?).map
        (fun e => (e.1, List.zipWith (· + ·) e.2 (gen k)))) ∧
    (freshDraw gen 0 pre).org_params = pre ∧
    (perturb_pre_hook true rswitch gen s).1.org_params =
      pre ++ [(nm, p)] := by
  have hcond : ¬ (s.noisy_params ≠ [] ∧ rswitch = false) := by
    rcases hfresh with h | h
    · exact fun hc => hc.1 h
    · intro hc
      rw [h] at hc
      simp at hc
  have hhook : perturb_pre_hook true rswitch gen s =
      (⟨(freshDraw gen 0 s.params).params,
        (freshDraw gen 0 s.params).org_params,
        (freshDraw gen 0 s.params).noisy_params⟩,
        (freshDraw gen 0 s.params).err) := by
    unfold perturb_pre_hook
    rw [if_pos rfl, if_neg hcond]
  have htail : freshDraw gen (0 + pre.length) ((nm, p) :: rest) =
      ⟨(nm, p) :: rest, [(nm, p)], [], some "ShapeMismatchError"⟩ := by
    have hz : 0 + pre.length = pre.length := Nat.zero_add _
    rw [hz]
    have hadd : tensorAdd p (gen pre.length) =
        Except.error "ShapeMismatchError" := by
      unfold tensorAdd
      rw [if_neg hmis]
    unfold freshDraw
    rw [hadd]
  have happ := freshDraw_append gen 0 pre ((nm, p) :: rest) hpreok
  rw [htail] at happ
  refine ⟨?_, ?_, ?_, freshDraw_org_of_ok gen 0 pre hpreok, ?_⟩
  · rw [hhook, hps]
    show (freshDraw gen 0 (pre ++ (nm, p) :: rest)).err = _
    rw [happ]
  · rw [hhook, hps]
    show (freshDraw gen 0 (pre ++ (nm, p) :: rest)).params = _
    rw [happ]
  · intro k
    have h := freshDraw_params_getElem_of_ok gen 0 pre hpreok k
    simpa using h
  · rw [hhook, hps]
    show (freshDraw gen 0 (pre ++ (nm, p) :: rest)).org_params = _
    rw [happ]
    show (freshDraw gen 0 pre).org_params ++ [(nm, p)] = _
    rw [freshDraw_org_of_ok gen 0 pre hpreok]

/-- Witness for C9: the second of three parameters receives a mismatched
sample; the first stays noised, the second and third stay unchanged. -/
theorem pre_evaluate_shape_mismatch_witness :
    (perturb_pre_hook true true
        (fun i => if i = 0 then [10, 10] else [])
        ⟨[("a", [1, 2]), ("b", [3]), ("c", [4])], [], []⟩).2 =
      some "ShapeMismatchError" ∧
    (perturb_pre_hook true true
        (fun i => if i = 0 then [10, 10] else [])
        ⟨[("a", [1, 2]), ("b", [3]), ("c", [4])], [], []⟩).1.params =
      (freshDraw (fun i => if i = 0 then [10, 10] else []) 0
        [("a", [1, 2])]).params ++ [("b", [3]), ("c", [4])] ∧
    (freshDraw (fun i => if i = 0 then [10, 10] else []) 0
        [("a", [1, 2])]).params[0]? = some ("a", [11, 12]) ∧
    (freshDraw (fun i => if i = 0 then [10, 10] else []) 0
        [("a", [1, 2])]).org_params = [("a", [1, 2])] := by
  have h := pre_evaluate_shape_mismatch
    ⟨[("a", [1, 2]), ("b", [3]), ("c", [4])], [], []⟩ true
    (fun i => if i = 0 then [10, 10] else []) [("a", [1, 2])]
    [("c", [4])] "b" [3] rfl (Or.inl rfl) (by decide) (by decide)
  refine ⟨h.1, h.2.1, ?_, h.2.2.2.1⟩
  rw [h.2.2.1 0]
  norm_num [List.zipWith]

/-- Claim C10: after any recording the tracker never holds both tags; a
recording whose tag is already pending (the other tag absent) replaces
the stored output without adaptation; any run of recordings under one
unchanged perturb switch leaves the controller untouched and keeps only
the most recent output of that tag; and when a pair then completes, the
most recent replacement is the value used in the distance. -/
theorem adjust_hook_replace_latest (distance_func : Tensor → Tensor → ℚ)
    (s : AdjustState) (b : Bool) (o w wo : Tensor) (os : List Tensor) :
    (¬ ((perturb_adjust_hook distance_func b o s).with_noise.isSome = true ∧
        (perturb_adjust_hook distance_func b o s).without_noise.isSome =
          true)) ∧
    (s.with_noise = some w → s.without_noise = none →
      perturb_adjust_hook distance_func true o s =
        { s with with_noise := some o }) ∧
    (s.without_noise = some wo → s.with_noise = none →
      perturb_adjust_hook distance_func false o s =
        { s with without_noise := some o }) ∧
    (s.without_noise = none →
      runAdjusts distance_func (os.map (fun o2 => (true, o2))) s =
        { s with with_noise := (os.getLast?.map some).getD s.with_noise }) ∧
    (s.with_noise = none →
      runAdjusts distance_func (os.map (fun o2 => (false, o2))) s =
        { s with
          without_noise := (os.getLast?.map some).getD s.without_noise }) ∧
    (s.with_noise = some w → s.without_noise = none →
      perturb_adjust_hook distance_func false wo
        (perturb_adjust_hook distance_func true o s) =
        ⟨none, none, s.param_noise_spec.adapt (distance_func o wo)⟩) := by
  refine ⟨adjust_hook_not_both distance_func b o s, ?_, ?_,
    runAdjusts_true_run distance_func os s,
    runAdjusts_false_run distance_func os s, ?_⟩
  · intro _ h2
    simp [perturb_adjust_hook, h2]
  · intro _ h2
    simp [perturb_adjust_hook, h2]
  · intro _ h2
    have hstep : perturb_adjust_hook distance_func true o s =
        { s with with_noise := some o } := by
      simp [perturb_adjust_hook, h2]
    rw [hstep]
    simp [perturb_adjust_hook]

/-- Witness for C10 at concrete tracker states. -/
theorem adjust_hook_replace_latest_witness :
    (¬ ((perturb_adjust_hook (fun _ _ => 0) true [1]
          ⟨none, none, AdaptiveParamNoise.make 1 1 2⟩).with_noise.isSome =
          true ∧
        (perturb_adjust_hook (fun _ _ => 0) true [1]
          ⟨none, none,
            AdaptiveParamNoise.make 1 1 2⟩).without_noise.isSome =
          true)) ∧
    perturb_adjust_hook (fun _ _ => 0) true [2]
        ⟨some [1], none, AdaptiveParamNoise.make 1 1 2⟩ =
      ⟨some [2], none, AdaptiveParamNoise.make 1 1 2⟩ ∧
    runAdjusts (fun _ _ => 0) ([[1], [2], [3]].map (fun o2 => (true, o2)))
        ⟨none, none, AdaptiveParamNoise.make 1 1 2⟩ =
      ⟨some [3], none, AdaptiveParamNoise.make 1 1 2⟩ ∧
    perturb_adjust_hook (fun _ _ => 0) false [4]
        (perturb_adjust_hook (fun _ _ => 0) true [2]
          ⟨some [1], none, AdaptiveParamNoise.make 1 1 2⟩) =
      ⟨none, none, (AdaptiveParamNoise.make 1 1 2).adapt
        ((fun _ _ : Tensor => (0 : ℚ)) [2] [4])⟩ :=
  ⟨(adjust_hook_replace_latest (fun _ _ => 0)
      ⟨none, none, AdaptiveParamNoise.make 1 1 2⟩ true [1] [1] [1] []).1,
    (adjust_hook_replace_latest (fun _ _ => 0)
      ⟨some [1], none, AdaptiveParamNoise.make 1 1 2⟩ true [2] [1] [1]
      []).2.1 rfl rfl,
    (adjust_hook_replace_latest (fun _ _ => 0)
      ⟨none, none, AdaptiveParamNoise.make 1 1 2⟩ true [1] [1] [1]
      [[1], [2], [3]]).2.2.2.1 rfl,
    (adjust_hook_replace_latest (fun _ _ => 0)
      ⟨some [1], none, AdaptiveParamNoise.make 1 1 2⟩ true [2] [1] [4]
      []).2.2.2.2.2 rfl rfl⟩

end ParamSpaceNoise
